import Mathlib

/-!
A shallow embedding of the histweet rule engine (lexer, recursive-descent
parser and evaluator from `lib/lexer.go`, `lib/parser.go`, `lib/rules.go`,
`lib/twitter.go`, `lib/util.go`).

Modelling conventions:
* Go strings are embedded as `List Char`; positions are character indices
  (identical to Go's byte offsets on the ASCII inputs exercised here).
* `time.Time` is embedded as `Time := Int`, the number of days since
  January 1 of year 1 (Go's zero `time.Time`), so `IsZero` becomes `= 0`,
  `Before` becomes `<` and `After` becomes `>`.  All instants appearing in
  rules and claims are midnights, for which the day-level embedding is exact.
* Fallible Go functions return `Except`; a Go panic inside the evaluator is
  modelled as the evaluator returning `none`.  `Parser.cond` can also panic
  at parse time, in `regexp.MustCompile`: compile success of the external
  RE2 engine is passed to the parser as an explicit predicate `compileOk`
  (general theorems hold for every such predicate, hence for the real
  engine), the panic is the distinguished outcome `PErr.mustCompilePanic`,
  and concrete inputs instantiate `compileOk` with `litRegexOk`, a stand-in
  that provably agrees with RE2 on the literal-fragment patterns the
  claims exercise.
* The Go lexer produces tokens on demand; here the token stream is computed
  up front by `lexAll` and the parser consumes the list.  On every input
  whose whole (trimmed) text lexes, the two presentations agree token for
  token; they can differ only on inputs that Go's parser abandons before
  reaching unlexable trailing text, which no claim below touches.
-/

namespace Histweet

/-! ## Characters and strings -/

/-- Length of the longest prefix all of whose characters satisfy `p`. -/
def countWhile (p : Char → Bool) : List Char → Nat
  | [] => 0
  | c :: cs => if p c then countWhile p cs + 1 else 0

/-- ASCII whitespace set of Go's `unicode.IsSpace` (the inputs are ASCII). -/
def isGoSpace (c : Char) : Bool :=
  c = ' ' || c = '\t' || c = '\n' || c = '\r' || c = Char.ofNat 11 || c = Char.ofNat 12

/-- `strings.TrimSpace` on the character-list embedding. -/
def trimChars (cs : List Char) : List Char :=
  ((cs.dropWhile isGoSpace).reverse.dropWhile isGoSpace).reverse

/-- Word characters of the RE2 class `\w`: `[0-9A-Za-z_]`. -/
def isWordChar (c : Char) : Bool :=
  c.isAlpha || c.isDigit || c = '_'

/-- Whitespace of the RE2 class `\s`: `[\t\n\f\r ]`. -/
def isReSpace (c : Char) : Bool :=
  c = ' ' || c = '\t' || c = '\n' || c = '\x0c' || c = '\r'

/-- ASCII lower-casing, as Go's month-name matching does with `c | 0x20`. -/
def lowerChar (c : Char) : Char :=
  if 'A' ≤ c ∧ c ≤ 'Z' then Char.ofNat (c.toNat + 32) else c

/-- Numeric value of a decimal digit character. -/
def digitVal (c : Char) : Nat := c.toNat - 48

/-- Value of a string of decimal digits. -/
def digitsToNat (cs : List Char) : Nat :=
  cs.foldl (fun acc c => acc * 10 + digitVal c) 0

/-- `strings.Replace(s, target, "", n)` for a single-character target:
removes the first `n` occurrences of `c`. -/
def removeN (c : Char) : Nat → List Char → List Char
  | _, [] => []
  | 0, cs => cs
  | n + 1, x :: xs => if x = c then removeN c n xs else x :: removeN c (n + 1) xs

/-- `strings.Contains` / unanchored substring search: does `pat` occur
contiguously inside `text`? -/
def listStartsWith : List Char → List Char → Bool
  | [], _ => true
  | _ :: _, [] => false
  | p :: ps, t :: ts => p = t && listStartsWith ps ts

/-- True iff `pat` occurs as a contiguous substring of `text`. -/
def containsSub (pat text : List Char) : Bool :=
  match text with
  | [] => listStartsWith pat []
  | _ :: rest => listStartsWith pat text || containsSub pat rest

/-! ## Civil-calendar arithmetic (`time.Time` at day granularity)

`Time` counts days since January 1 of year 1 (Go's zero `time.Time`).
`daysFromCivil`/`civilFromDays` are the standard era-based conversions
between a civil date and a linear day count; `addDate` mirrors Go's
`Time.AddDate`, which normalizes out-of-range months and days. -/

abbrev Time := Int

def isLeap (y : Int) : Bool :=
  (y % 4 == 0 && y % 100 != 0) || y % 400 == 0

def daysInMonth (y m : Int) : Int :=
  if m = 2 then (if isLeap y then 29 else 28)
  else if m = 4 ∨ m = 6 ∨ m = 9 ∨ m = 11 then 30
  else 31

/-- Days since 1970-01-01 of the civil date `y-m-d` (`d` may be out of
range; it is treated as an offset, exactly as Go's `time.Date` does). -/
def daysFromCivil (y m d : Int) : Int :=
  let yAdj : Int := if m ≤ 2 then y - 1 else y
  let era : Int := Int.fdiv yAdj 400
  let yoe : Int := yAdj - era * 400
  let mp : Int := if m > 2 then m - 3 else m + 9
  let doy : Int := Int.fdiv (153 * mp + 2) 5 + d - 1
  let doe : Int := yoe * 365 + Int.fdiv yoe 4 - Int.fdiv yoe 100 + doy
  era * 146097 + doe - 719468

/-- Inverse of `daysFromCivil` (for in-range dates). -/
def civilFromDays (z0 : Int) : Int × Int × Int :=
  let z : Int := z0 + 719468
  let era : Int := Int.fdiv z 146097
  let doe : Int := z - era * 146097
  let yoe : Int :=
    Int.fdiv (doe - Int.fdiv doe 1460 + Int.fdiv doe 36524 - Int.fdiv doe 146096) 365
  let y : Int := yoe + era * 400
  let doy : Int := doe - (365 * yoe + Int.fdiv yoe 4 - Int.fdiv yoe 100)
  let mp : Int := Int.fdiv (5 * doy + 2) 153
  let d : Int := doy - Int.fdiv (153 * mp + 2) 5 + 1
  let m : Int := if mp < 10 then mp + 3 else mp - 9
  (if m ≤ 2 then y + 1 else y, m, d)

/-- Offset between the 1970 epoch of `daysFromCivil` and the year-1 epoch
of `Time` (`daysFromCivil 1 1 1 = -719162`). -/
def year1Offset : Int := 719162

/-- The `Time` of the civil date `y-m-d` (midnight UTC). -/
def mkTime (y m d : Int) : Time :=
  daysFromCivil y m d + year1Offset

/-- Go's `Time.AddDate(years, months, days)`: add calendar units with the
normalization performed by `time.Date`. -/
def addDate (t : Time) (years months days : Int) : Time :=
  let c := civilFromDays (t - year1Offset)
  let y := c.1
  let m := c.2.1
  let d := c.2.2
  let m0 : Int := m + months
  let yN : Int := y + years + Int.fdiv (m0 - 1) 12
  let mN : Int := Int.emod (m0 - 1) 12 + 1
  mkTime yN mN (d + days)

/-! ## `time.Parse("02-Jan-2006", _)` and `strconv` -/

/-- Three-letter month-name lookup, case-insensitive as in Go's date
parser. -/
def monthOfName (a b c : Char) : Option Int :=
  let n := [lowerChar a, lowerChar b, lowerChar c]
  if n = ['j', 'a', 'n'] then some 1
  else if n = ['f', 'e', 'b'] then some 2
  else if n = ['m', 'a', 'r'] then some 3
  else if n = ['a', 'p', 'r'] then some 4
  else if n = ['m', 'a', 'y'] then some 5
  else if n = ['j', 'u', 'n'] then some 6
  else if n = ['j', 'u', 'l'] then some 7
  else if n = ['a', 'u', 'g'] then some 8
  else if n = ['s', 'e', 'p'] then some 9
  else if n = ['o', 'c', 't'] then some 10
  else if n = ['n', 'o', 'v'] then some 11
  else if n = ['d', 'e', 'c'] then some 12
  else none

/-- Go's `time.Parse` with the fixed layout `"02-Jan-2006"`: two day
digits, a dash, a three-letter month name, a dash, four year digits, the
whole string consumed, and the day in range for the month. -/
def dateParse (cs : List Char) : Except Unit Time :=
  match cs with
  | [d1, d2, h1, m1, m2, m3, h2, y1, y2, y3, y4] =>
    if d1.isDigit && d2.isDigit && h1 = '-' && h2 = '-'
        && y1.isDigit && y2.isDigit && y3.isDigit && y4.isDigit then
      match monthOfName m1 m2 m3 with
      | none => .error ()
      | some mo =>
        let day : Int := (digitVal d1 * 10 + digitVal d2 : Nat)
        let yr : Int :=
          (digitsToNat [y1, y2, y3, y4] : Nat)
        if day < 1 ∨ day > daysInMonth yr mo then .error ()
        else .ok (mkTime yr mo day)
    else .error ()
  | _ => .error ()

/-- Go's `strconv.Atoi` (64-bit `strconv.ParseInt`): optional sign, at
least one digit, nothing else, value within the signed 64-bit range. -/
def atoi (cs : List Char) : Except Unit Int :=
  let signed : Bool × List Char :=
    match cs with
    | '+' :: rest => (false, rest)
    | '-' :: rest => (true, rest)
    | _ => (false, cs)
  let neg := signed.1
  let ds := signed.2
  if ds = [] ∨ ¬ ds.all Char.isDigit then .error ()
  else
    let n := digitsToNat ds
    if neg then
      if n > 9223372036854775808 then .error () else .ok (-(n : Int))
    else
      if n > 9223372036854775807 then .error () else .ok (n : Int)

/-! ## `convertAgeToTime` (`lib/util.go`)

The helper matches `(\d+y)?(\d+m)?(\d+d)?` against the age literal and
subtracts the named units from `now`.  The regexp can match the empty
string, so `FindStringSubmatch` never returns nil and the only error path
is a 32-bit overflow in `strconv.ParseInt(_, 10, 32)`. -/

/-- Match one `\d+u` group at the front of `cs`; returns the digit string
and the remainder. -/
def grabUnit (u : Char) (cs : List Char) : Option (List Char × List Char) :=
  let d := countWhile Char.isDigit cs
  if d = 0 then none
  else
    match (cs.drop d).head? with
    | some c => if c = u then some (cs.take d, cs.drop (d + 1)) else none
    | none => none

/-- `strconv.ParseInt(s, 10, 32)` on a digit string, with the empty group
contributing 0 (Go skips empty submatches). -/
def parseI32 (ds : List Char) : Except Unit Int :=
  if ds = [] then .ok 0
  else if digitsToNat ds > 2147483647 then .error ()
  else .ok (digitsToNat ds : Int)

/-- `convertAgeToTime` from `lib/util.go`, with the current instant passed
explicitly (the Go code reads `time.Now()`). -/
def convertAgeToTime (now : Time) (cs : List Char) : Except Unit Time := do
  let g1 : List Char × List Char :=
    match grabUnit 'y' cs with
    | some (d, r) => (d, r)
    | none => ([], cs)
  let g2 : List Char × List Char :=
    match grabUnit 'm' g1.2 with
    | some (d, r) => (d, r)
    | none => ([], g1.2)
  let g3 : List Char :=
    match grabUnit 'd' g2.2 with
    | some (d, _) => d
    | none => []
  let years ← parseI32 g1.1
  let months ← parseI32 g2.1
  let days ← parseI32 g3
  .ok (addDate now (-years) (-months) (-days))

/-! ## Tokens (`lib/lexer.go`) -/

/-- `tokenKind` from `lib/lexer.go`. -/
inductive TokenKind where
  | tokenIdent
  | tokenNumber
  | tokenString
  | tokenAge
  | tokenTime
  | tokenLparen
  | tokenRparen
  | tokenOr
  | tokenAnd
  | tokenGte
  | tokenGt
  | tokenLte
  | tokenLt
  | tokenEq
  | tokenNeq
  | tokenIn
  | tokenNotIn
  | tokenEOF
  deriving DecidableEq, Repr

/-- `token` from `lib/lexer.go`. -/
structure Token where
  kind : TokenKind
  val : List Char
  pos : Nat
  size : Nat
  deriving DecidableEq, Repr

/-! Each token pattern of the `Tokens` table is anchored (`^...`), so a
pattern either matches a prefix of the remaining input or not at all.  The
matchers below return the length of that prefix. -/

/-- `^[a-zA-Z_]+` -/
def matchIdent (cs : List Char) : Option Nat :=
  let n := countWhile (fun c => c.isAlpha || c = '_') cs
  if n = 0 then none else some n

/-- `^[0-9]+` -/
def matchNumber (cs : List Char) : Option Nat :=
  let n := countWhile Char.isDigit cs
  if n = 0 then none else some n

/-- `^"[^\"]*"` -/
def matchStringTok (cs : List Char) : Option Nat :=
  match cs with
  | '"' :: rest =>
    let n := countWhile (fun c => ¬ (c = '"')) rest
    if n = rest.length then none else some (n + 2)
  | _ => none

/-- One `[0-9]+[ymd]` group: maximal digit run followed by a unit letter. -/
def ageBlock (cs : List Char) : Option Nat :=
  let d := countWhile Char.isDigit cs
  if d = 0 then none
  else
    match (cs.drop d).head? with
    | some c => if c = 'y' ∨ c = 'm' ∨ c = 'd' then some (d + 1) else none
    | none => none

/-- `^\s*([0-9]+[ymd])?([0-9]+[ymd])?([0-9]+[ymd])`: optional whitespace,
then one to three consecutive digit+unit groups (greedily, as the
backtracking reading of the pattern consumes them). -/
def matchAge (cs : List Char) : Option Nat :=
  let ws := countWhile isReSpace cs
  let rest := cs.drop ws
  match ageBlock rest with
  | none => none
  | some n1 =>
    match ageBlock (rest.drop n1) with
    | none => some (ws + n1)
    | some n2 =>
      match ageBlock (rest.drop (n1 + n2)) with
      | none => some (ws + n1 + n2)
      | some n3 => some (ws + n1 + n2 + n3)

/-- `^\d\d-\w\w\w-\d\d\d\d` -/
def matchTime (cs : List Char) : Option Nat :=
  match cs with
  | a :: b :: c :: d :: e :: f :: g :: h :: i :: j :: k :: _ =>
    if a.isDigit && b.isDigit && c = '-' && isWordChar d && isWordChar e
        && isWordChar f && g = '-' && h.isDigit && i.isDigit && j.isDigit
        && k.isDigit then
      some 11
    else none
  | _ => none

/-- An anchored literal pattern such as `^\(` or `^>=`. -/
def matchExact (pat : List Char) (cs : List Char) : Option Nat :=
  if listStartsWith pat cs then some pat.length else none

/-- All anchored patterns of the `Tokens` table, tried at the current
position.  Every successful match starts at offset 0, so Go's tie-break
("earliest, then longest") reduces to picking the longest match.  No two
patterns of this table can match the same position with the same length
(the kinds have pairwise different first characters or lengths), so Go's
random map-iteration order never influences the winner. -/
def tokenCandidates (cs : List Char) : List (TokenKind × Option Nat) :=
  [(.tokenIdent, matchIdent cs),
   (.tokenNumber, matchNumber cs),
   (.tokenString, matchStringTok cs),
   (.tokenAge, matchAge cs),
   (.tokenTime, matchTime cs),
   (.tokenLparen, matchExact ['('] cs),
   (.tokenRparen, matchExact [')'] cs),
   (.tokenOr, matchExact ['|', '|'] cs),
   (.tokenAnd, matchExact ['&', '&'] cs),
   (.tokenGte, matchExact ['>', '='] cs),
   (.tokenGt, matchExact ['>'] cs),
   (.tokenLte, matchExact ['<', '='] cs),
   (.tokenLt, matchExact ['<'] cs),
   (.tokenEq, matchExact ['=', '='] cs),
   (.tokenNeq, matchExact ['!', '='] cs),
   (.tokenIn, matchExact ['~'] cs),
   (.tokenNotIn, matchExact ['!', '~'] cs)]

/-- The longest match at the current position, if any. -/
def bestMatch (cs : List Char) : Option (TokenKind × Nat) :=
  (tokenCandidates cs).foldl
    (fun best cand =>
      match cand.2 with
      | none => best
      | some n =>
        match best with
        | none => some (cand.1, n)
        | some (_, m) => if n > m then some (cand.1, n) else best)
    none

/-- Parse/lex errors (`ParserError` and the ad-hoc `fmt.Errorf` values of
the Go code, by category).  `mustCompilePanic` is not an error return in
Go: it models the `regexp.MustCompile` panic inside `Parser.cond`, which
aborts the program, so `Parse` does not return successfully in that case
either.  `outOfFuel` is an artifact of the embedding: `Parse` always
supplies enough fuel, as the concrete evaluations and the grammar lemma
confirm. -/
inductive PErr where
  | unbalancedClose (pos : Nat)
  | unbalancedOpen (pos : Nat)
  | lexNoMatch (pos : Nat)
  | unexpectedTok (msg : List Char)
  | unexpectedLogical (pos : Nat)
  | semErr (msg : List Char)
  | mustCompilePanic (pat : List Char)
  | outOfFuel
  deriving DecidableEq, Repr

/-- `lexer.nextToken`: skip spaces, find the best anchored match, build the
token (its value trimmed) and advance past it.  At or past the end of the
input the EOF token is produced.  (The Go space-skip loop would run past
the end of a string of trailing spaces, but the lexer input is trimmed, so
that situation cannot arise.) -/
def nextTokenM (cs : List Char) (pos : Nat) : Except PErr (Token × Nat) :=
  if pos ≥ cs.length then
    .ok ({ kind := .tokenEOF, val := [], pos := cs.length, size := 0 }, cs.length)
  else
    let rest := cs.drop pos
    let sk := countWhile (fun c => c = ' ') rest
    let pos1 := pos + sk
    let rest1 := cs.drop pos1
    match bestMatch rest1 with
    | none => .error (.lexNoMatch pos1)
    | some (k, n) =>
      .ok ({ kind := k, val := trimChars (rest1.take n), pos := pos1, size := n },
           pos1 + n)

/-- Run the lexer to completion, collecting all tokens before EOF. -/
def lexAllAux (cs : List Char) : Nat → Nat → Except PErr (List Token)
  | 0, _ => .error .outOfFuel
  | fuel + 1, pos => do
    let (t, p2) ← nextTokenM cs pos
    if t.kind = .tokenEOF then .ok []
    else do
      let ts ← lexAllAux cs fuel p2
      .ok (t :: ts)

/-- The whole token stream of (already trimmed) input `cs`.  Every token
consumes at least one character, so `cs.length + 1` steps always reach
EOF. -/
def lexAll (cs : List Char) : Except PErr (List Token) :=
  lexAllAux cs (cs.length + 1) 0

/-! ## Rules and tweets (`lib/rules.go`, `lib/twitter.go`) -/

/-- `ruleComparator` from `lib/rules.go` (zero value `comparatorGt`). -/
inductive RuleComparator where
  | comparatorGt
  | comparatorGte
  | comparatorLt
  | comparatorLte
  | comparatorEq
  | comparatorNeq
  deriving DecidableEq, Repr

/-- `RuleTweet` from `lib/rules.go`.  A compiled `*regexp.Regexp` is
embedded as the pattern it was compiled from (`none` = nil pointer);
compilation itself lives in an external library, whose success predicate
the parser takes as the explicit parameter `compileOk` (a failing compile
is the `regexp.MustCompile` panic, see `PErr.mustCompilePanic`).
`Contains` is carried for structural fidelity; the final `Tweet.IsMatch`
never reads it. -/
structure RuleTweet where
  Before : Time
  After : Time
  Match : Option (List Char)
  Contains : List Char
  Likes : Int
  LikesComparator : RuleComparator
  Retweets : Int
  RetweetsComparator : RuleComparator
  deriving DecidableEq, Repr

/-- `&RuleTweet{}`: all fields at their Go zero values. -/
def emptyRule : RuleTweet :=
  { Before := 0, After := 0, Match := none, Contains := [],
    Likes := 0, LikesComparator := .comparatorGt,
    Retweets := 0, RetweetsComparator := .comparatorGt }

/-- `Tweet` from `lib/twitter.go`. -/
structure Tweet where
  ID : Int
  CreatedAt : Time
  Text : List Char
  NumLikes : Int
  NumRetweets : Int
  NumReplies : Int
  IsRetweet : Bool
  IsReply : Bool
  deriving DecidableEq, Repr

/-- A tweet with all fields at their zero values. -/
def zeroTweet : Tweet :=
  { ID := 0, CreatedAt := 0, Text := [], NumLikes := 0, NumRetweets := 0,
    NumReplies := 0, IsRetweet := false, IsReply := false }

/-- Modelled from the spec: the evaluation side of the external Go regexp
engine (`regexp.FindStringIndex(text) != nil`), specified as "regex search
against `post.text`; true iff a match is found (unanchored, substring
search)".  For the literal, metacharacter-free patterns appearing in the
claims this is exactly substring containment. -/
def regexFind (pat text : List Char) : Bool :=
  containsSub pat text

/-- The RE2 metacharacters (the characters that are special outside a
character class and compile literally when backslash-escaped). -/
def regexMeta (c : Char) : Bool :=
  c = '\\' || c = '.' || c = '+' || c = '*' || c = '?' || c = '(' || c = ')'
    || c = '|' || c = '[' || c = ']' || c = '{' || c = '}' || c = '^' || c = '$'

/-- Modelled from the external RE2 library (not part of this repository
and not covered by the spec): compile success of `regexp.Compile` on the
fragment of patterns built from literal non-metacharacter characters and
backslash-escaped metacharacters.  RE2 compiles every pattern of this
fragment, so this stand-in agrees with the real engine on all patterns
the claims exercise (such as `hey!` and `\(`), and it rejects the
patterns RE2 rejects that matter here (such as a lone `[`).  The parser
below takes the compile predicate as an explicit parameter `compileOk`;
this function only instantiates it at concrete inputs inside the
fragment. -/
def litRegexOk : List Char → Bool
  | [] => true
  | '\\' :: c :: rest => regexMeta c && litRegexOk rest
  | '\\' :: [] => false
  | c :: rest => !regexMeta c && litRegexOk rest

/-- One comparator application from the `switch` blocks of
`Tweet.IsMatch`. -/
def applyComparator (c : RuleComparator) (a b : Int) : Bool :=
  match c with
  | .comparatorGt => decide (a > b)
  | .comparatorGte => decide (a ≥ b)
  | .comparatorLt => decide (a < b)
  | .comparatorLte => decide (a ≤ b)
  | .comparatorEq => decide (a = b)
  | .comparatorNeq => decide (¬ a = b)

/-- `Tweet.IsMatch` from `lib/twitter.go` (the interface-based revision,
lines 69-132).  Transcribed exactly as written there; note that the
`!rule.After.IsZero()` branch compares `createdAt.After(rule.Before)` —
against `Before`, not `After` — just as the source does. -/
def isMatch (tweet : Tweet) (rule : Option RuleTweet) : Bool :=
  match rule with
  | none => false
  | some r =>
    let createdAt := tweet.CreatedAt
    let m1 : Bool := true
    let m2 : Bool :=
      if r.Before ≠ 0 then m1 && decide (createdAt < r.Before) else m1
    let m3 : Bool :=
      if r.After ≠ 0 then m2 && decide (createdAt > r.Before) else m2
    let m4 : Bool :=
      match r.Match with
      | some pat => m3 && regexFind pat tweet.Text
      | none => m3
    let m5 : Bool :=
      if r.Likes > 0 then
        m4 && applyComparator r.LikesComparator tweet.NumLikes r.Likes
      else m4
    let m6 : Bool :=
      if r.Retweets > 0 then
        m5 && applyComparator r.RetweetsComparator tweet.NumRetweets r.Retweets
      else m5
    m6

/-! ## Parse tree and evaluator (`lib/parser.go`) -/

/-- A `*parseNode` pointer: nil, or a node of one of the two kinds the
parser builds (`nodeCond`, `nodeLogical`).  Folding the pointer into the
inductive keeps the recursion structural; the nilable `rule` pointer of a
condition node stays `Option`. -/
inductive ParseNode where
  | nil
  | cond (rule : Option RuleTweet) (op : TokenKind)
  | logical (op : TokenKind) (left right : ParseNode)
  deriving DecidableEq, Repr

/-- `ParsedRule` (the root may be the nil pointer, as `Parser.expr` can
return a nil node). -/
structure ParsedRule where
  root : ParseNode
  numNodes : Nat
  deriving DecidableEq, Repr

/-- `evalInternal` from `lib/parser.go`, with a Go panic modelled as
`none`: dereferencing a nil node pointer panics, and a logical node whose
operator is neither `&&` nor `||` hits the explicit `panic` branch. -/
def evalInternal (tweet : Tweet) : ParseNode → Option Bool
  | .nil => none
  | .cond rule _ => some (isMatch tweet rule)
  | .logical op l r =>
    match evalInternal tweet l, evalInternal tweet r with
    | some lv, some rv =>
      match op with
      | .tokenAnd => some (lv && rv)
      | .tokenOr => some (lv || rv)
      | _ => none
    | _, _ => none

/-- `ParsedRule.Eval`. -/
def evalRule (rule : ParsedRule) (tweet : Tweet) : Option Bool :=
  evalInternal tweet rule.root

/-! ## The recursive-descent parser (`lib/parser.go`) -/

/-- `Parser.match` specialised to one expected kind: checks the current
token (the head of the remaining stream) and consumes it. -/
def matchTok (k : TokenKind) (toks : List Token) : Except PErr (Token × List Token) :=
  match toks with
  | [] => .error (.unexpectedTok ['e', 'o', 'f'])
  | t :: rest => if t.kind = k then .ok (t, rest) else .error (.unexpectedTok t.val)

/-- `Parser.op`: accept one of the eight comparison operators. -/
def matchOpTok (toks : List Token) : Except PErr (Token × List Token) :=
  match toks with
  | [] => .error (.semErr ['o', 'p'])
  | t :: rest =>
    match t.kind with
    | .tokenLt | .tokenLte | .tokenGt | .tokenGte | .tokenEq | .tokenNeq
    | .tokenIn | .tokenNotIn => .ok (t, rest)
    | _ => .error (.semErr ['o', 'p'])

/-- `Parser.literal`: accept a string, number, age or time literal. -/
def matchLitTok (toks : List Token) : Except PErr (Token × List Token) :=
  match toks with
  | [] => .error (.semErr ['l', 'i', 't'])
  | t :: rest =>
    match t.kind with
    | .tokenString | .tokenNumber | .tokenAge | .tokenTime => .ok (t, rest)
    | _ => .error (.semErr ['l', 'i', 't'])

/-- The per-identifier semantic switch of `Parser.cond`, building the
`RuleTweet` from the identifier, operator kind and literal token.
`compileOk` is the compile-success predicate of the external regexp
engine: in the `text` case, `regexp.MustCompile` panics on a pattern the
engine rejects, modelled as the `mustCompilePanic` outcome. -/
def condSem (now : Time) (compileOk : List Char → Bool) (idv : List Char) (opk : TokenKind) (lit : Token) :
    Except PErr RuleTweet :=
  if idv = ['a', 'g', 'e'] then
    if ¬ lit.kind = .tokenAge then .error (.semErr ['a', 'g', 'e']) else
    match convertAgeToTime now lit.val with
    | .error _ => .error (.semErr ['a', 'g', 'e'])
    | .ok t =>
      match opk with
      | .tokenGt | .tokenGte => .ok { emptyRule with Before := t }
      | .tokenLt | .tokenLte => .ok { emptyRule with After := t }
      | _ => .error (.semErr ['a', 'g', 'e'])
  else if idv = ['t', 'e', 'x', 't'] then
    if ¬ lit.kind = .tokenString then .error (.semErr ['t', 'e', 'x', 't']) else
    match opk with
    | .tokenIn | .tokenNotIn =>
      let pat := removeN '"' 2 lit.val
      if compileOk pat then .ok { emptyRule with Match := some pat }
      else .error (.mustCompilePanic pat)
    | _ => .error (.semErr ['t', 'e', 'x', 't'])
  else if idv = ['c', 'r', 'e', 'a', 't', 'e', 'd'] then
    if ¬ lit.kind = .tokenTime then .error (.semErr ['c', 'r']) else
    match dateParse lit.val with
    | .error _ => .error (.semErr ['c', 'r'])
    | .ok t =>
      match opk with
      | .tokenGt | .tokenGte => .ok { emptyRule with Before := t }
      | .tokenLt | .tokenLte => .ok { emptyRule with After := t }
      | _ => .error (.semErr ['c', 'r'])
  else if idv = ['l', 'i', 'k', 'e', 's'] then
    if ¬ lit.kind = .tokenNumber then .error (.semErr ['l', 'k']) else
    match atoi lit.val with
    | .error _ => .error (.semErr ['l', 'k'])
    | .ok n =>
      match opk with
      | .tokenGt => .ok { emptyRule with Likes := n, LikesComparator := .comparatorGt }
      | .tokenGte => .ok { emptyRule with Likes := n, LikesComparator := .comparatorGte }
      | .tokenLt => .ok { emptyRule with Likes := n, LikesComparator := .comparatorLt }
      | .tokenLte => .ok { emptyRule with Likes := n, LikesComparator := .comparatorLte }
      | .tokenEq => .ok { emptyRule with Likes := n, LikesComparator := .comparatorEq }
      | .tokenNeq => .ok { emptyRule with Likes := n, LikesComparator := .comparatorNeq }
      | _ => .error (.semErr ['l', 'k'])
  else if idv = ['r', 'e', 't', 'w', 'e', 'e', 't', 's'] then
    if ¬ lit.kind = .tokenNumber then .error (.semErr ['r', 't']) else
    match atoi lit.val with
    | .error _ => .error (.semErr ['r', 't'])
    | .ok n =>
      match opk with
      | .tokenGt => .ok { emptyRule with Retweets := n, RetweetsComparator := .comparatorGt }
      | .tokenGte => .ok { emptyRule with Retweets := n, RetweetsComparator := .comparatorGte }
      | .tokenLt => .ok { emptyRule with Retweets := n, RetweetsComparator := .comparatorLt }
      | .tokenLte => .ok { emptyRule with Retweets := n, RetweetsComparator := .comparatorLte }
      | .tokenEq => .ok { emptyRule with Retweets := n, RetweetsComparator := .comparatorEq }
      | .tokenNeq => .ok { emptyRule with Retweets := n, RetweetsComparator := .comparatorNeq }
      | _ => .error (.semErr ['r', 't'])
  else .error (.semErr ['i', 'd'])

/-- `Parser.cond`: identifier, operator, literal, then the semantic
switch; yields a condition node carrying the rule and the operator kind. -/
def condT (now : Time) (compileOk : List Char → Bool) (toks : List Token) : Except PErr (ParseNode × List Token) := do
  let (i, t1) ← matchTok .tokenIdent toks
  let (o, t2) ← matchOpTok t1
  let (l, t3) ← matchLitTok t2
  let r ← condSem now compileOk i.val o.kind l
  .ok (.cond (some r) o.kind, t3)

/-- Parser state: the not-yet-consumed tokens (the head is `currToken`,
an empty list standing for the EOF token) and the `numNodes` counter. -/
structure PState where
  toks : List Token
  numNodes : Nat

/-- `Parser.expr`: the `for`/`switch` loop.  `node` is the loop's
accumulator (`var node *parseNode`); each iteration that does not return
increments `numNodes`, exactly as the `parser.rule.numNodes++` at the
bottom of the Go loop does.  The fuel argument only bounds the recursion;
`Parse` supplies `toks.length + 1`, which is always sufficient because
every chained call either consumes a token first or terminates. -/
def exprT (now : Time) (compileOk : List Char → Bool) : Nat → ParseNode → PState →
    Except PErr (ParseNode × PState)
  | 0, _, _ => .error .outOfFuel
  | fuel + 1, node, st =>
    match st.toks with
    | [] => .ok (node, st)
    | tk :: rest =>
      match tk.kind with
      | .tokenLparen => do
        let (n, st1) ← exprT now compileOk fuel .nil { toks := rest, numNodes := st.numNodes }
        match st1.toks with
        | tk2 :: rest2 =>
          if tk2.kind = .tokenRparen then
            exprT now compileOk fuel n { toks := rest2, numNodes := st1.numNodes + 1 }
          else .error (.unexpectedTok tk2.val)
        | [] => .error (.unexpectedTok ['e', 'o', 'f'])
      | .tokenIdent => do
        let (n, t2) ← condT now compileOk (tk :: rest)
        exprT now compileOk fuel n { toks := t2, numNodes := st.numNodes + 1 }
      | .tokenAnd | .tokenOr =>
        match node with
        | .nil => .error (.unexpectedLogical tk.pos)
        | _ => do
          let (rnode, st1) ← exprT now compileOk fuel .nil { toks := rest, numNodes := st.numNodes }
          exprT now compileOk fuel (.logical tk.kind node rnode)
            { toks := st1.toks, numNodes := st1.numNodes + 1 }
      | _ => .ok (node, st)

/-- `checkUnbalancedParens` from `lib/util.go`: a single pass with a stack
of `(` positions. -/
def checkParensAux : List Char → Nat → List Nat → Option PErr
  | [], _, stack =>
    match stack with
    | [] => none
    | p :: _ => some (.unbalancedOpen p)
  | c :: rest, i, stack =>
    if c = '(' then checkParensAux rest (i + 1) (i :: stack)
    else if c = ')' then
      match stack with
      | [] => some (.unbalancedClose i)
      | _ :: s => checkParensAux rest (i + 1) s
    else checkParensAux rest (i + 1) stack

def checkUnbalancedParens (cs : List Char) : Option PErr :=
  checkParensAux cs 0 []

/-- `Parser.Parse` composed with the `Parse` entry point of
`lib/parser.go`: trim the input (done by `newLexer`), reject unbalanced
parentheses before any tokenization, lex, run `expr` and take its node as
the root (trailing tokens that `expr` did not consume are ignored, as in
the source). -/
def Parse (now : Time) (compileOk : List Char → Bool) (input : String) : Except PErr ParsedRule :=
  let cs := trimChars input.toList
  match checkUnbalancedParens cs with
  | some e => .error e
  | none => do
    let ts ← lexAll cs
    let (node, st) ← exprT now compileOk (ts.length + 1) .nil { toks := ts, numNodes := 0 }
    .ok { root := node, numNodes := st.numNodes }

/-! ## Specification-side predicates used by the claims -/

/-- `Parser.expr` run the way `Parse` runs it, but on an explicit token
stream (fuel `length + 1`, fresh accumulator and node counter). -/
def parseToks (now : Time) (compileOk : List Char → Bool) (ts : List Token) : Except PErr (ParseNode × PState) :=
  exprT now compileOk (ts.length + 1) .nil { toks := ts, numNodes := 0 }

/-- Dyck-language balance of the parenthesis characters of a string
(`k` open parentheses so far); independent reference definition for the
pre-check of `lib/util.go`. -/
def balancedAux : List Char → Nat → Bool
  | [], k => k == 0
  | c :: rest, k =>
    if c = '(' then balancedAux rest (k + 1)
    else if c = ')' then decide (0 < k) && balancedAux rest (k - 1)
    else balancedAux rest k

/-- Well-formed parse trees: every node is a condition or a logical node
(not nil), every logical node carries `&&` or `||` and two well-formed
(hence non-nil) children.  On such trees the panic branches of
`evalInternal` are unreachable. -/
inductive WF : ParseNode → Prop where
  | cond (rule : Option RuleTweet) (op : TokenKind) : WF (.cond rule op)
  | logical (op : TokenKind) (l r : ParseNode)
      (hop : op = .tokenAnd ∨ op = .tokenOr) (hl : WF l) (hr : WF r) :
      WF (.logical op l r)

/-- A token sequence forming one grammatically and semantically valid
`Cond` production: an identifier, an operator and a literal that
`Parser.cond` accepts, producing the node `n` and leaving the rest of the
stream untouched. -/
def CondOK (now : Time) (compileOk : List Char → Bool) (c : List Token) (n : ParseNode) : Prop :=
  ∃ i o l, c = [i, o, l] ∧ ∀ rest, condT now compileOk (i :: o :: l :: rest) = .ok (n, rest)

/-- Token sequences derivable from the spec grammar
`Expr := "(" Expr ")" Tail | Cond Tail`, `Tail := (AND|OR) Expr | ε`,
with the per-field semantic validation of §4.2 folded into the `Cond`
production (`CondOK`).  The four constructors are the two `Expr`
alternatives times the two `Tail` alternatives. -/
inductive GExpr (now : Time) (compileOk : List Char → Bool) : List Token → Prop where
  | cond1 (c : List Token) (n : ParseNode) (hc : CondOK now compileOk c n) : GExpr now compileOk c
  | cond2 (c : List Token) (n : ParseNode) (t : Token) (e : List Token)
      (hc : CondOK now compileOk c n) (ht : t.kind = .tokenAnd ∨ t.kind = .tokenOr)
      (he : GExpr now compileOk e) : GExpr now compileOk (c ++ t :: e)
  | paren1 (tl tr : Token) (e : List Token)
      (hl : tl.kind = .tokenLparen) (hr : tr.kind = .tokenRparen)
      (he : GExpr now compileOk e) : GExpr now compileOk (tl :: e ++ [tr])
  | paren2 (tl tr t : Token) (e e2 : List Token)
      (hl : tl.kind = .tokenLparen) (hr : tr.kind = .tokenRparen)
      (ht : t.kind = .tokenAnd ∨ t.kind = .tokenOr)
      (he : GExpr now compileOk e) (he2 : GExpr now compileOk e2) :
      GExpr now compileOk (tl :: e ++ tr :: t :: e2)

/-- Token streams at which the `Parser.expr` loop stops without consuming
anything: end of input or a closing parenthesis (the stream left behind by
an inner expression). -/
def stopOk (suffix : List Token) : Prop :=
  suffix = [] ∨ ∃ t rest, suffix = t :: rest ∧ t.kind = .tokenRparen

/-- The source text of each of the six comparison operators accepted for
`likes`/`retweets`. -/
def compOpString (c : RuleComparator) : String :=
  match c with
  | .comparatorGt => ">"
  | .comparatorGte => ">="
  | .comparatorLt => "<"
  | .comparatorLte => "<="
  | .comparatorEq => "=="
  | .comparatorNeq => "!="

/-- The `RuleTweet` a parsed `likes` condition produces. -/
def likesRule (n : Int) (c : RuleComparator) : RuleTweet :=
  { emptyRule with Likes := n, LikesComparator := c }

/-- The `RuleTweet` a parsed `created <`/`<=` condition produces. -/
def createdAfterRule (t : Time) : RuleTweet :=
  { emptyRule with After := t }

/-! ## Theorems -/

/-- C1.  Behaviour of the code at the claim's inputs.  Parsing
`created < 10-May-2020` does store the date as the rule's `After` bound
(first conjunct), but evaluation compares `createdAt.After(rule.Before)`
— against the zero `Before` field — so the rule matches a post created
2020-05-11 (third conjunct, value `true`) although the claim requires it
not to.  The post created 2020-05-09 also matches (second conjunct), and
in general the rule matches exactly the posts whose `createdAt` is after
the zero time (fourth conjunct), not those before 2020-05-10. -/
theorem c1_code_behavior :
    Parse 0 litRegexOk "created < 10-May-2020" =
      .ok { root := .cond (some (createdAfterRule (mkTime 2020 5 10))) .tokenLt,
            numNodes := 1 }
    ∧ (Parse 0 litRegexOk "created < 10-May-2020").toOption.map
        (fun pr => evalRule pr { zeroTweet with CreatedAt := mkTime 2020 5 9 }) =
      some (some true)
    ∧ (Parse 0 litRegexOk "created < 10-May-2020").toOption.map
        (fun pr => evalRule pr { zeroTweet with CreatedAt := mkTime 2020 5 11 }) =
      some (some true)
    ∧ ∀ t : Tweet,
        (Parse 0 litRegexOk "created < 10-May-2020").toOption.map (fun pr => evalRule pr t) =
          some (some (decide (t.CreatedAt > 0))) := by
  refine ⟨rfl, rfl, rfl, ?_⟩
  intro t
  have h1 : Parse 0 litRegexOk "created < 10-May-2020" =
      .ok { root := .cond (some (createdAfterRule (mkTime 2020 5 10))) .tokenLt,
            numNodes := 1 } := rfl
  rw [h1]
  exact rfl

/-- C2.  Behaviour of the code at the claim's inputs.  `text !~ "hey!"`
evaluates to `true` on a tweet whose text is `hey!` (first conjunct),
although the claim requires the negation of the `~` result (second
conjunct).  In general the semantic switch of `Parser.cond` builds the
identical `RuleTweet` for `!~` and `~` applied to any literal (third
conjunct), and `evalInternal` ignores a condition node's operator, so the
two rules evaluate identically on every tweet (fourth conjunct). -/
theorem c2_code_behavior :
    (Parse 0 litRegexOk "text !~ \"hey!\"").toOption.map
        (fun pr => evalRule pr { zeroTweet with Text := ['h', 'e', 'y', '!'] }) =
      some (some true)
    ∧ (Parse 0 litRegexOk "text ~ \"hey!\"").toOption.map
        (fun pr => evalRule pr { zeroTweet with Text := ['h', 'e', 'y', '!'] }) =
      some (some true)
    ∧ (∀ (now : Time) (compileOk : List Char → Bool) (lit : Token),
        condSem now compileOk ['t', 'e', 'x', 't'] .tokenNotIn lit =
          condSem now compileOk ['t', 'e', 'x', 't'] .tokenIn lit)
    ∧ ∀ t : Tweet,
        (Parse 0 litRegexOk "text !~ \"hey!\"").toOption.map (fun pr => evalRule pr t) =
        (Parse 0 litRegexOk "text ~ \"hey!\"").toOption.map (fun pr => evalRule pr t) := by
  refine ⟨rfl, rfl, ?_, ?_⟩
  · intro now compileOk lit
    by_cases h : lit.kind = .tokenString <;> simp [condSem, h]
  intro t
  have h1 : Parse 0 litRegexOk "text !~ \"hey!\"" =
      .ok { root := .cond (some { emptyRule with Match := some ['h', 'e', 'y', '!'] })
              .tokenNotIn, numNodes := 1 } := rfl
  have h2 : Parse 0 litRegexOk "text ~ \"hey!\"" =
      .ok { root := .cond (some { emptyRule with Match := some ['h', 'e', 'y', '!'] })
              .tokenIn, numNodes := 1 } := rfl
  rw [h1, h2]
  exact rfl

/-- C6.  Comparator correctness for `likes`: `likes == 34` evaluates to
whether the tweet has exactly 34 likes (so it matches 34, not 33), and
`likes != 34` evaluates to the boolean negation of that on every tweet. -/
theorem c6_likes_comparators :
    ∀ t : Tweet,
      (Parse 0 litRegexOk "likes == 34").toOption.map (fun pr => evalRule pr t) =
        some (some (decide (t.NumLikes = 34)))
      ∧ (Parse 0 litRegexOk "likes != 34").toOption.map (fun pr => evalRule pr t) =
        some (some (!decide (t.NumLikes = 34))) := by
  intro t
  have h1 : Parse 0 litRegexOk "likes == 34" =
      .ok { root := .cond (some (likesRule 34 .comparatorEq)) .tokenEq,
            numNodes := 1 } := rfl
  have h2 : Parse 0 litRegexOk "likes != 34" =
      .ok { root := .cond (some (likesRule 34 .comparatorNeq)) .tokenNeq,
            numNodes := 1 } := rfl
  rw [h1, h2]
  refine ⟨rfl, ?_⟩
  have h3 : (Except.ok (ε := PErr)
      { root := .cond (some (likesRule 34 .comparatorNeq)) .tokenNeq,
        numNodes := 1 }).toOption.map (fun pr => evalRule pr t) =
      some (some (decide (¬ t.NumLikes = 34))) := rfl
  rw [h3, decide_not]

/-- C7.  The regression input parses successfully and produces exactly 10
parse nodes. -/
theorem c7_node_count :
    (Parse 0 litRegexOk "((text !~ \"hey!\") && (likes == 5)) || created < 10-May-2020 || likes == 9").toOption.map
      ParsedRule.numNodes = some 10 :=
  rfl

/-- C8.  A parsed `likes` or `retweets` condition whose threshold is `0`
evaluates to `true` on every tweet, for each of the six comparison
operators: `Tweet.IsMatch` only applies the stored comparator when the
stored threshold is strictly positive, so a zero threshold behaves like an
unset field. -/
theorem c8_zero_threshold :
    ∀ (op : RuleComparator) (t : Tweet),
      (Parse 0 litRegexOk ("likes " ++ compOpString op ++ " 0")).toOption.map
        (fun pr => evalRule pr t) = some (some true)
      ∧ (Parse 0 litRegexOk ("retweets " ++ compOpString op ++ " 0")).toOption.map
        (fun pr => evalRule pr t) = some (some true) := by
  intro op t
  cases op <;> exact ⟨rfl, rfl⟩

/-- C9.  `Parse` on the empty string (and on an all-whitespace string,
which the lexer trims to the empty string) succeeds with a nil root, and
evaluating that `ParsedRule` dereferences the nil root for every tweet
(`none` is the embedding of the Go nil-pointer panic). -/
theorem c9_empty_input :
    Parse 0 litRegexOk "" = .ok { root := .nil, numNodes := 0 }
    ∧ Parse 0 litRegexOk "   " = .ok { root := .nil, numNodes := 0 }
    ∧ ∀ t : Tweet, evalRule { root := .nil, numNodes := 0 } t = none :=
  ⟨rfl, rfl, fun _ => rfl⟩

/-- C10.  Juxtaposing two conditions with no logical operator between them
parses successfully, and the resulting root is only the last condition
(the same node `likes == 3` alone produces), so the first condition has no
effect on evaluation: the whole rule evaluates to `NumLikes = 3` on every
tweet. -/
theorem c10_juxtaposed_conditions :
    Parse 0 litRegexOk "likes == 5 likes == 3" =
      .ok { root := .cond (some (likesRule 3 .comparatorEq)) .tokenEq, numNodes := 2 }
    ∧ (Parse 0 litRegexOk "likes == 3").toOption.map ParsedRule.root =
      some (.cond (some (likesRule 3 .comparatorEq)) .tokenEq)
    ∧ ∀ t : Tweet,
        (Parse 0 litRegexOk "likes == 5 likes == 3").toOption.map (fun pr => evalRule pr t) =
          some (some (decide (t.NumLikes = 3))) := by
  refine ⟨rfl, rfl, ?_⟩
  intro t
  have h1 : Parse 0 litRegexOk "likes == 5 likes == 3" =
      .ok { root := .cond (some (likesRule 3 .comparatorEq)) .tokenEq,
            numNodes := 2 } := rfl
  rw [h1]
  exact rfl

/-! ### C5: the balanced-parentheses pre-check -/

theorem checkParensAux_none_iff (cs : List Char) :
    ∀ (i : Nat) (stack : List Nat),
      checkParensAux cs i stack = none ↔ balancedAux cs stack.length = true := by
  induction cs with
  | nil =>
    intro i stack
    cases stack <;> simp [checkParensAux, balancedAux]
  | cons c rest ih =>
    intro i stack
    by_cases hc : c = '('
    · simpa [checkParensAux, balancedAux, hc] using ih (i + 1) (i :: stack)
    · by_cases hc2 : c = ')'
      · cases stack with
        | nil => simp [checkParensAux, balancedAux, hc, hc2]
        | cons q s =>
          simpa [checkParensAux, balancedAux, hc, hc2] using ih (i + 1) s
      · simpa [checkParensAux, balancedAux, hc, hc2] using ih i.succ stack

theorem checkParensAux_err (cs : List Char) :
    ∀ (i : Nat) (stack : List Nat) (e : PErr),
      checkParensAux cs i stack = some e →
      (∃ p j, e = .unbalancedClose p ∧ p = i + j ∧ cs.get? j = some ')')
      ∨ (∃ p, e = .unbalancedOpen p ∧
          (p ∈ stack ∨ ∃ j, p = i + j ∧ cs.get? j = some '(')) := by
  induction cs with
  | nil =>
    intro i stack e h
    cases stack with
    | nil => simp [checkParensAux] at h
    | cons q s =>
      simp [checkParensAux] at h
      exact .inr ⟨q, h.symm, .inl (by simp)⟩
  | cons c rest ih =>
    intro i stack e h
    by_cases hc : c = '('
    · simp only [checkParensAux, hc, if_pos rfl] at h
      rcases ih (i + 1) (i :: stack) e h with ⟨p, j, he, hp, hg⟩ | ⟨p, he, hmem | ⟨j, hp, hg⟩⟩
      · exact .inl ⟨p, j + 1, he, by omega, by simpa using hg⟩
      · rcases List.mem_cons.mp hmem with rfl | hmem2
        · exact .inr ⟨p, he, .inr ⟨0, by omega, by simp [hc]⟩⟩
        · exact .inr ⟨p, he, .inl hmem2⟩
      · exact .inr ⟨p, he, .inr ⟨j + 1, by omega, by simpa using hg⟩⟩
    · by_cases hc2 : c = ')'
      · cases stack with
        | nil =>
          simp [checkParensAux, hc, hc2] at h
          exact .inl ⟨i, 0, h.symm, by omega, by simp [hc2]⟩
        | cons q s =>
          simp only [checkParensAux, hc, hc2, if_neg, if_pos rfl] at h
          rcases ih (i + 1) s e h with ⟨p, j, he, hp, hg⟩ | ⟨p, he, hmem | ⟨j, hp, hg⟩⟩
          · exact .inl ⟨p, j + 1, he, by omega, by simpa using hg⟩
          · exact .inr ⟨p, he, .inl (List.mem_cons_of_mem q hmem)⟩
          · exact .inr ⟨p, he, .inr ⟨j + 1, by omega, by simpa using hg⟩⟩
      · simp only [checkParensAux, hc, hc2, if_neg] at h
        rcases ih (i + 1) stack e h with ⟨p, j, he, hp, hg⟩ | ⟨p, he, hmem | ⟨j, hp, hg⟩⟩
        · exact .inl ⟨p, j + 1, he, by omega, by simpa using hg⟩
        · exact .inr ⟨p, he, .inl hmem⟩
        · exact .inr ⟨p, he, .inr ⟨j + 1, by omega, by simpa using hg⟩⟩

theorem balancedAux_allNonParen (w : List Char)
    (hw : ∀ c ∈ w, ¬ c = '(' ∧ ¬ c = ')') :
    ∀ k, balancedAux w k = (k == 0) := by
  induction w with
  | nil => intro k; rfl
  | cons c rest ih =>
    intro k
    obtain ⟨h1, h2⟩ := hw c (by simp)
    simp only [balancedAux, h1, h2, if_neg, if_false]
    exact ih (fun d hd => hw d (by simp [hd])) k

theorem balancedAux_append_nonParen (x w : List Char)
    (hw : ∀ c ∈ w, ¬ c = '(' ∧ ¬ c = ')') :
    ∀ k, balancedAux (x ++ w) k = balancedAux x k := by
  induction x with
  | nil =>
    intro k
    simpa [balancedAux] using balancedAux_allNonParen w hw k
  | cons c rest ih =>
    intro k
    by_cases hc : c = '('
    · simp [balancedAux, hc, ih]
    · by_cases hc2 : c = ')'
      · simp [balancedAux, hc, hc2, ih]
      · simp [balancedAux, hc, hc2, ih]

theorem balancedAux_dropWhile_space (cs : List Char) :
    ∀ k, balancedAux (cs.dropWhile isGoSpace) k = balancedAux cs k := by
  induction cs with
  | nil => intro k; rfl
  | cons c rest ih =>
    intro k
    by_cases hc : isGoSpace c
    · have h1 : ¬ c = '(' := by rintro rfl; simp [isGoSpace] at hc
      have h2 : ¬ c = ')' := by rintro rfl; simp [isGoSpace] at hc
      simp [List.dropWhile_cons, hc, balancedAux, h1, h2, ih]
    · simp [List.dropWhile_cons, hc]

theorem isGoSpace_not_paren {c : Char} (h : isGoSpace c = true) :
    ¬ c = '(' ∧ ¬ c = ')' := by
  constructor <;> rintro rfl <;> simp [isGoSpace] at h

/-- Trimming only removes whitespace at the two ends, so the
parenthesis balance of the trimmed input equals that of the raw input. -/
theorem balancedAux_trim (cs : List Char) :
    ∀ k, balancedAux (trimChars cs) k = balancedAux cs k := by
  intro k
  unfold trimChars
  set as := cs.dropWhile isGoSpace with has
  have hsplit : as.reverse.takeWhile isGoSpace ++ as.reverse.dropWhile isGoSpace
      = as.reverse := List.takeWhile_append_dropWhile isGoSpace as.reverse
  have hAs : (as.reverse.dropWhile isGoSpace).reverse
      ++ (as.reverse.takeWhile isGoSpace).reverse = as := by
    rw [← List.reverse_append, hsplit, List.reverse_reverse]
  have hw : ∀ c ∈ (as.reverse.takeWhile isGoSpace).reverse, ¬ c = '(' ∧ ¬ c = ')' := by
    intro c hmem
    exact isGoSpace_not_paren (List.mem_takeWhile_imp (List.mem_reverse.mp hmem))
  calc balancedAux (as.reverse.dropWhile isGoSpace).reverse k
      = balancedAux ((as.reverse.dropWhile isGoSpace).reverse
          ++ (as.reverse.takeWhile isGoSpace).reverse) k :=
        (balancedAux_append_nonParen _ _ hw k).symm
    _ = balancedAux as k := by rw [hAs]
    _ = balancedAux cs k := balancedAux_dropWhile_space cs k

/-- C5.  On every input whose parenthesis characters are unbalanced (in
the Dyck sense, counting every `(` and `)` of the raw string), `Parse`
fails with an unbalanced-parenthesis error whose reported position indexes
the offending `(` or `)` of the (trimmed) input.  The error is produced by
the pre-check that `Parse` runs before constructing any token, so no
lexical or grammar error can be surfaced for such an input. -/
theorem c5_unbalanced_parens (now : Time) (compileOk : List Char → Bool) (input : String)
    (h : balancedAux input.toList 0 = false) :
    ∃ p, (Parse now compileOk input = .error (.unbalancedClose p)
            ∧ (trimChars input.toList).get? p = some ')')
       ∨ (Parse now compileOk input = .error (.unbalancedOpen p)
            ∧ (trimChars input.toList).get? p = some '(') := by
  have htrim : balancedAux (trimChars input.toList) 0 = false := by
    rw [balancedAux_trim input.toList 0, h]
  have hne : ¬ checkParensAux (trimChars input.toList) 0 [] = none := by
    intro hn
    have hbal := (checkParensAux_none_iff (trimChars input.toList) 0 []).mp hn
    simp only [List.length_nil] at hbal
    rw [htrim] at hbal
    exact Bool.false_ne_true hbal
  obtain ⟨e, he⟩ := Option.ne_none_iff_exists.mp hne
  have hp : Parse now compileOk input = .error e := by
    simp only [Parse, checkUnbalancedParens]
    rw [← he]
  rcases checkParensAux_err (trimChars input.toList) 0 [] e he.symm with
    ⟨p, j, rfl, hpj, hg⟩ | ⟨p, rfl, hmem | ⟨j, hpj, hg⟩⟩
  · exact ⟨p, .inl ⟨hp, by rwa [show p = j by omega]⟩⟩
  · simp at hmem
  · exact ⟨p, .inr ⟨hp, by rwa [show p = j by omega]⟩⟩

/-- C5 witness: the concrete unbalanced input `(likes`. -/
theorem c5_unbalanced_parens_witness :
    balancedAux ("(likes" : String).toList 0 = false ∧
    ∃ p, (Parse 0 litRegexOk "(likes" = .error (.unbalancedClose p)
            ∧ (trimChars ("(likes" : String).toList).get? p = some ')')
       ∨ (Parse 0 litRegexOk "(likes" = .error (.unbalancedOpen p)
            ∧ (trimChars ("(likes" : String).toList).get? p = some '(') :=
  ⟨by decide, c5_unbalanced_parens 0 litRegexOk "(likes" (by decide)⟩

/-! ### Small-step lemmas for the parser loop -/

theorem except_bind_ok {α β : Type} (a : α) (f : α → Except PErr β) :
    ((.ok a : Except PErr α) >>= f) = f a := rfl

theorem except_bind_err {α β : Type} (e : PErr) (f : α → Except PErr β) :
    ((.error e : Except PErr α) >>= f) = .error e := rfl

/-- A successful `Parser.cond` always yields a condition node with a
non-nil rule. -/
theorem condT_shape (now : Time) (compileOk : List Char → Bool) (toks : List Token) (n : ParseNode)
    (rest : List Token) (h : condT now compileOk toks = .ok (n, rest)) :
    ∃ r k, n = .cond (some r) k := by
  unfold condT at h
  cases hm : matchTok .tokenIdent toks with
  | error e => rw [hm, except_bind_err] at h; exact absurd h (by simp)
  | ok p =>
    obtain ⟨i, t1⟩ := p
    rw [hm, except_bind_ok] at h
    dsimp only at h
    cases ho : matchOpTok t1 with
    | error e => rw [ho, except_bind_err] at h; exact absurd h (by simp)
    | ok q =>
      obtain ⟨o, t2⟩ := q
      rw [ho, except_bind_ok] at h
      dsimp only at h
      cases hl : matchLitTok t2 with
      | error e => rw [hl, except_bind_err] at h; exact absurd h (by simp)
      | ok w =>
        obtain ⟨l, t3⟩ := w
        rw [hl, except_bind_ok] at h
        dsimp only at h
        cases hs : condSem now compileOk i.val o.kind l with
        | error e => rw [hs, except_bind_err] at h; exact absurd h (by simp)
        | ok r =>
          rw [hs, except_bind_ok] at h
          exact ⟨r, o.kind, by injection h with h1; injection h1 with h2 h3; exact h2.symm⟩

/-- A successful `Parser.cond` starts with an identifier token. -/
theorem condT_ok_kind (now : Time) (compileOk : List Char → Bool) (i : Token) (t1 : List Token)
    (pr : ParseNode × List Token) (h : condT now compileOk (i :: t1) = .ok pr) :
    i.kind = .tokenIdent := by
  by_contra hne
  simp only [condT, matchTok, hne, if_neg, if_false, except_bind_err] at h
  exact absurd h (by simp)

/-- One loop iteration at an identifier token: run `cond`, make its node
the accumulator, count a node. -/
theorem exprT_step_ident (now : Time) (compileOk : List Char → Bool) (f : Nat) (node : ParseNode) (k : Nat)
    (i : Token) (rest rest2 : List Token) (n : ParseNode)
    (hk : i.kind = .tokenIdent) (hc : condT now compileOk (i :: rest) = .ok (n, rest2)) :
    exprT now compileOk (f + 1) node { toks := i :: rest, numNodes := k } =
      exprT now compileOk f n { toks := rest2, numNodes := k + 1 } := by
  simp only [exprT, hk, hc, except_bind_ok]

/-- One loop iteration at `&&`/`||` with a non-nil accumulator: parse the
whole rest as the right operand, then continue with the logical node. -/
theorem exprT_step_logical (now : Time) (compileOk : List Char → Bool) (f : Nat) (node : ParseNode) (k : Nat)
    (t : Token) (rest : List Token)
    (ht : t.kind = .tokenAnd ∨ t.kind = .tokenOr) (hn : ¬ node = .nil) :
    exprT now compileOk (f + 1) node { toks := t :: rest, numNodes := k } =
      (do
        let (rnode, st1) ← exprT now compileOk f .nil { toks := rest, numNodes := k }
        exprT now compileOk f (.logical t.kind node rnode)
          { toks := st1.toks, numNodes := st1.numNodes + 1 }) := by
  rcases ht with h | h <;> cases node <;>
    first
      | exact absurd rfl hn
      | simp only [exprT, h]

/-- One loop iteration at `(`: parse the inner expression, require `)`,
continue with the inner node as accumulator. -/
theorem exprT_step_lparen (now : Time) (compileOk : List Char → Bool) (f : Nat) (node : ParseNode) (k : Nat)
    (t : Token) (rest : List Token) (ht : t.kind = .tokenLparen) :
    exprT now compileOk (f + 1) node { toks := t :: rest, numNodes := k } =
      (do
        let (n, st1) ← exprT now compileOk f .nil { toks := rest, numNodes := k }
        match st1.toks with
        | tk2 :: rest2 =>
          if tk2.kind = .tokenRparen then
            exprT now compileOk f n { toks := rest2, numNodes := st1.numNodes + 1 }
          else .error (.unexpectedTok tk2.val)
        | [] => .error (.unexpectedTok ['e', 'o', 'f'])) := by
  simp only [exprT, ht]

/-- The loop returns its accumulator at the end of input or at `)`. -/
theorem exprT_step_stop (now : Time) (compileOk : List Char → Bool) (f : Nat) (node : ParseNode) (st : PState)
    (h : stopOk st.toks) : exprT now compileOk (f + 1) node st = .ok (node, st) := by
  obtain ⟨toks, k⟩ := st
  rcases h with h | ⟨t, rest, h, hk⟩ <;> simp only at h <;> subst h
  · simp only [exprT]
  · simp only [exprT, hk]

/-! ### C3: right associativity, no AND/OR precedence -/

/-- C3.  For arbitrary valid conditions `a`, `b`, `c` (token sequences the
parser's `cond` production accepts, producing nodes `na`, `nb`, `nc`) and
arbitrary `&&`/`||`/`(`/`)` tokens, the parse of `a && b || c` and the
parse of `a && (b || c)` both succeed and produce the *same* root
`na && (nb || nc)` — the right-hand side of a logical operator is a fresh
recursive parse absorbing everything to its right, with no precedence
distinction.  Identical roots evaluate identically on every post; the
trees differ only in the node count (5 versus 6). -/
theorem c3_right_associativity (now : Time) (compileOk : List Char → Bool) (a b c : List Token)
    (na nb nc : ParseNode) (tAnd tOr tLp tRp : Token)
    (ha : CondOK now compileOk a na) (hb : CondOK now compileOk b nb) (hc : CondOK now compileOk c nc)
    (hAnd : tAnd.kind = .tokenAnd) (hOr : tOr.kind = .tokenOr)
    (hLp : tLp.kind = .tokenLparen) (hRp : tRp.kind = .tokenRparen) :
    parseToks now compileOk (a ++ tAnd :: b ++ tOr :: c) =
      .ok (.logical .tokenAnd na (.logical .tokenOr nb nc),
           { toks := [], numNodes := 5 })
    ∧ parseToks now compileOk (a ++ tAnd :: tLp :: b ++ tOr :: (c ++ [tRp])) =
      .ok (.logical .tokenAnd na (.logical .tokenOr nb nc),
           { toks := [], numNodes := 6 }) := by
  obtain ⟨i1, o1, l1, rfl, h1⟩ := ha
  obtain ⟨i2, o2, l2, rfl, h2⟩ := hb
  obtain ⟨i3, o3, l3, rfl, h3⟩ := hc
  have hk1 := condT_ok_kind now compileOk i1 _ _ (h1 [])
  have hk2 := condT_ok_kind now compileOk i2 _ _ (h2 [])
  have hk3 := condT_ok_kind now compileOk i3 _ _ (h3 [])
  obtain ⟨ra, ka, hsa⟩ := condT_shape now compileOk _ _ _ (h1 [])
  obtain ⟨rb, kb, hsb⟩ := condT_shape now compileOk _ _ _ (h2 [])
  have hna : ¬ na = .nil := by rw [hsa]; simp
  have hnb : ¬ nb = .nil := by rw [hsb]; simp
  have Hc : ∀ (f k : Nat) (suffix : List Token), stopOk suffix →
      exprT now compileOk (f + 1 + 1) .nil { toks := i3 :: o3 :: l3 :: suffix, numNodes := k } =
        .ok (nc, { toks := suffix, numNodes := k + 1 }) := by
    intro f k suffix hs
    rw [exprT_step_ident now compileOk (f + 1) .nil k i3 (o3 :: l3 :: suffix) suffix nc hk3
      (h3 suffix)]
    exact exprT_step_stop now compileOk f nc _ hs
  have Hbc : ∀ (f k : Nat) (suffix : List Token), stopOk suffix →
      exprT now compileOk (f + 1 + 1 + 1 + 1 + 1) .nil
          { toks := i2 :: o2 :: l2 :: tOr :: i3 :: o3 :: l3 :: suffix, numNodes := k } =
        .ok (.logical .tokenOr nb nc, { toks := suffix, numNodes := k + 1 + 1 + 1 }) := by
    intro f k suffix hs
    rw [exprT_step_ident now compileOk (f + 1 + 1 + 1 + 1) .nil k i2 _ _ nb hk2 (h2 _)]
    rw [exprT_step_logical now compileOk (f + 1 + 1 + 1) nb (k + 1) tOr _ (Or.inr hOr) hnb]
    rw [Hc (f + 1) (k + 1) suffix hs]
    rw [except_bind_ok]
    dsimp only
    rw [hOr]
    exact exprT_step_stop now compileOk (f + 1 + 1) _ _ hs
  constructor
  · simp only [List.cons_append, List.nil_append, parseToks, List.length_cons,
      List.length_nil]
    rw [exprT_step_ident now compileOk _ .nil 0 i1 _ _ na hk1 (h1 _)]
    rw [exprT_step_logical now compileOk _ na (0 + 1) tAnd _ (Or.inl hAnd) hna]
    rw [Hbc _ _ [] (Or.inl rfl)]
    rw [except_bind_ok]
    dsimp only
    rw [hAnd]
    rw [exprT_step_stop now compileOk _ _ _ (Or.inl rfl)]
  · simp only [List.cons_append, List.nil_append, parseToks, List.length_cons,
      List.length_nil]
    rw [exprT_step_ident now compileOk _ .nil 0 i1 _ _ na hk1 (h1 _)]
    rw [exprT_step_logical now compileOk _ na (0 + 1) tAnd _ (Or.inl hAnd) hna]
    rw [exprT_step_lparen now compileOk _ .nil (0 + 1) tLp _ hLp]
    rw [Hbc _ _ [tRp] (Or.inr ⟨tRp, [], rfl, hRp⟩)]
    rw [except_bind_ok]
    dsimp only
    rw [hRp]
    rw [if_pos rfl]
    rw [exprT_step_stop now compileOk _ _ _ (Or.inl rfl)]
    rw [except_bind_ok]
    dsimp only
    rw [hAnd]
    rw [exprT_step_stop now compileOk _ _ _ (Or.inl rfl)]

/-- C3 witness: three concrete `likes` conditions with concrete operator
and parenthesis tokens. -/
theorem c3_right_associativity_witness :
    parseToks 0 litRegexOk
        ([⟨.tokenIdent, ['l', 'i', 'k', 'e', 's'], 0, 5⟩,
          ⟨.tokenEq, ['=', '='], 6, 2⟩, ⟨.tokenNumber, ['1'], 9, 1⟩]
          ++ ⟨.tokenAnd, ['&', '&'], 11, 2⟩ ::
          [⟨.tokenIdent, ['l', 'i', 'k', 'e', 's'], 14, 5⟩,
           ⟨.tokenEq, ['=', '='], 20, 2⟩, ⟨.tokenNumber, ['2'], 23, 1⟩]
          ++ ⟨.tokenOr, ['|', '|'], 25, 2⟩ ::
          [⟨.tokenIdent, ['l', 'i', 'k', 'e', 's'], 28, 5⟩,
           ⟨.tokenEq, ['=', '='], 34, 2⟩, ⟨.tokenNumber, ['3'], 37, 1⟩]) =
      .ok (.logical .tokenAnd (.cond (some (likesRule 1 .comparatorEq)) .tokenEq)
            (.logical .tokenOr (.cond (some (likesRule 2 .comparatorEq)) .tokenEq)
              (.cond (some (likesRule 3 .comparatorEq)) .tokenEq)),
           { toks := [], numNodes := 5 }) := by
  have h := (c3_right_associativity 0 litRegexOk
    [⟨.tokenIdent, ['l', 'i', 'k', 'e', 's'], 0, 5⟩,
     ⟨.tokenEq, ['=', '='], 6, 2⟩, ⟨.tokenNumber, ['1'], 9, 1⟩]
    [⟨.tokenIdent, ['l', 'i', 'k', 'e', 's'], 14, 5⟩,
     ⟨.tokenEq, ['=', '='], 20, 2⟩, ⟨.tokenNumber, ['2'], 23, 1⟩]
    [⟨.tokenIdent, ['l', 'i', 'k', 'e', 's'], 28, 5⟩,
     ⟨.tokenEq, ['=', '='], 34, 2⟩, ⟨.tokenNumber, ['3'], 37, 1⟩]
    (.cond (some (likesRule 1 .comparatorEq)) .tokenEq)
    (.cond (some (likesRule 2 .comparatorEq)) .tokenEq)
    (.cond (some (likesRule 3 .comparatorEq)) .tokenEq)
    ⟨.tokenAnd, ['&', '&'], 11, 2⟩ ⟨.tokenOr, ['|', '|'], 25, 2⟩
    ⟨.tokenLparen, ['('], 0, 1⟩ ⟨.tokenRparen, [')'], 0, 1⟩
    ⟨_, _, _, rfl, fun _ => rfl⟩ ⟨_, _, _, rfl, fun _ => rfl⟩
    ⟨_, _, _, rfl, fun _ => rfl⟩ rfl rfl rfl rfl).1
  exact h

/-! ### C4: grammar-accepted inputs parse to well-formed trees and
evaluation is total on them -/

theorem wf_ne_nil {n : ParseNode} (h : WF n) : ¬ n = .nil := by
  cases h <;> simp

/-- On a well-formed tree the evaluator always returns a boolean: neither
the nil-dereference nor the unexpected-operator panic branch is
reachable. -/
theorem evalInternal_wf {n : ParseNode} (h : WF n) :
    ∀ t : Tweet, ∃ b, evalInternal t n = some b := by
  induction h with
  | cond r o => exact fun t => ⟨_, rfl⟩
  | logical op l r hop hl hr ihl ihr =>
    intro t
    obtain ⟨bl, hbl⟩ := ihl t
    obtain ⟨br, hbr⟩ := ihr t
    rcases hop with rfl | rfl
    · exact ⟨bl && br, by simp [evalInternal, hbl, hbr]⟩
    · exact ⟨bl || br, by simp [evalInternal, hbl, hbr]⟩

/-- Soundness of `Parser.expr` with respect to the grammar: on a
grammar-derivable token sequence followed by a stopper (end of input or
`)`), the loop consumes exactly the derivable part, never fails, and
produces a well-formed node — for any accumulator, node count and any
sufficient fuel (`length + 1`, what `Parse` supplies, is sufficient). -/
theorem exprT_of_gexpr (now : Time) (compileOk : List Char → Bool) :
    ∀ (ts : List Token), GExpr now compileOk ts →
      ∀ (suffix : List Token) (acc : ParseNode) (k f : Nat),
        stopOk suffix → ts.length + 1 ≤ f →
        ∃ n m, exprT now compileOk f acc { toks := ts ++ suffix, numNodes := k } =
          .ok (n, { toks := suffix, numNodes := m }) ∧ WF n := by
  intro ts hg
  induction hg with
  | cond1 c n hc =>
    intro suffix acc k f hs hf
    obtain ⟨i, o, l, rfl, hcond⟩ := hc
    simp only [List.length_cons, List.length_nil] at hf
    obtain ⟨g, rfl⟩ : ∃ g, f = g + 1 + 1 := ⟨f - 2, by omega⟩
    obtain ⟨r, k2, rfl⟩ := condT_shape now compileOk _ _ _ (hcond [])
    refine ⟨.cond (some r) k2, k + 1, ?_, WF.cond _ _⟩
    simp only [List.cons_append, List.nil_append]
    rw [exprT_step_ident now compileOk (g + 1) acc k i _ _ _
      (condT_ok_kind now compileOk i _ _ (hcond [])) (hcond suffix)]
    exact exprT_step_stop now compileOk g _ _ hs
  | cond2 c n t e hc ht he ih =>
    intro suffix acc k f hs hf
    obtain ⟨i, o, l, rfl, hcond⟩ := hc
    simp only [List.length_append, List.length_cons, List.length_nil] at hf
    obtain ⟨g, rfl⟩ : ∃ g, f = g + 1 + 1 + 1 := ⟨f - 3, by omega⟩
    obtain ⟨r, k2, hshape⟩ := condT_shape now compileOk _ _ _ (hcond [])
    have hnn : ¬ n = .nil := by rw [hshape]; simp
    obtain ⟨n2, m2, heq, hwf2⟩ := ih suffix .nil (k + 1) (g + 1) hs (by omega)
    refine ⟨.logical t.kind n n2, m2 + 1, ?_,
      WF.logical _ _ _ ht (by rw [hshape]; exact WF.cond _ _) hwf2⟩
    simp only [List.cons_append, List.nil_append]
    rw [exprT_step_ident now compileOk (g + 1 + 1) acc k i _ _ _
      (condT_ok_kind now compileOk i _ _ (hcond [])) (hcond (t :: (e ++ suffix)))]
    rw [exprT_step_logical now compileOk (g + 1) n (k + 1) t _ ht hnn]
    rw [heq, except_bind_ok]
    dsimp only
    exact exprT_step_stop now compileOk g _ _ hs
  | paren1 tl tr e hl hr he ih =>
    intro suffix acc k f hs hf
    simp only [List.length_append, List.length_cons, List.length_nil] at hf
    obtain ⟨g, rfl⟩ : ∃ g, f = g + 1 + 1 := ⟨f - 2, by omega⟩
    obtain ⟨n2, m2, heq, hwf2⟩ :=
      ih (tr :: suffix) .nil k (g + 1) (Or.inr ⟨tr, suffix, rfl, hr⟩) (by omega)
    refine ⟨n2, m2 + 1, ?_, hwf2⟩
    simp only [List.cons_append, List.append_assoc, List.nil_append]
    rw [exprT_step_lparen now compileOk (g + 1) acc k tl _ hl]
    rw [heq, except_bind_ok]
    dsimp only
    rw [hr, if_pos rfl]
    exact exprT_step_stop now compileOk g _ _ hs
  | paren2 tl tr t e e2 hl hr ht he he2 ih ih2 =>
    intro suffix acc k f hs hf
    simp only [List.length_append, List.length_cons, List.length_nil] at hf
    obtain ⟨z, rfl⟩ : ∃ z, f = z + 1 + 1 + 1 := ⟨f - 3, by omega⟩
    obtain ⟨n1, m1, heq1, hwf1⟩ :=
      ih (tr :: t :: (e2 ++ suffix)) .nil k (z + 1 + 1)
        (Or.inr ⟨tr, _, rfl, hr⟩) (by omega)
    obtain ⟨n2, m2, heq2, hwf2⟩ := ih2 suffix .nil (m1 + 1) (z + 1) hs (by omega)
    refine ⟨.logical t.kind n1 n2, m2 + 1, ?_,
      WF.logical _ _ _ ht hwf1 hwf2⟩
    simp only [List.cons_append, List.append_assoc, List.nil_append]
    rw [exprT_step_lparen now compileOk (z + 1 + 1) acc k tl _ hl]
    rw [heq1, except_bind_ok]
    dsimp only
    rw [hr, if_pos rfl]
    rw [exprT_step_logical now compileOk (z + 1) n1 (m1 + 1) t _ ht (wf_ne_nil hwf1)]
    rw [heq2, except_bind_ok]
    dsimp only
    exact exprT_step_stop now compileOk z _ _ hs

/-- The parse-time `regexp.MustCompile` panic is represented in the
embedding: on `text ~ "["` — a pattern RE2 rejects, on which Go's
`Parser.cond` panics — `Parse` does not succeed but surfaces the
distinguished panic outcome, and consequently the input does not satisfy
the grammar-acceptance hypothesis (`CondOK`) of the C4 theorem below. -/
theorem mustCompilePanic_example :
    Parse 0 litRegexOk "text ~ \"[\"" = .error (.mustCompilePanic ['[']) := rfl

/-- C4 (amended).  For every compile-success predicate of the regexp
engine and every rule string that passes the balanced-parentheses
pre-check, lexes completely, and whose token sequence is derivable from
the semantically validated grammar — which includes, via `CondOK`, that
`Parser.cond` accepts each condition, in particular that
`regexp.MustCompile` does not panic on any `text` pattern — `Parse`
succeeds; the resulting tree is well-formed — every node is a condition
or a logical node, every logical node has `&&`/`||` and two non-nil
children — and `Eval` returns a boolean for every tweet, never reaching a
panic branch. -/
theorem c4_grammar_parse_eval (now : Time) (compileOk : List Char → Bool) (input : String) (ts : List Token)
    (hbal : checkUnbalancedParens (trimChars input.toList) = none)
    (hlex : lexAll (trimChars input.toList) = .ok ts)
    (hg : GExpr now compileOk ts) :
    ∃ pr, Parse now compileOk input = .ok pr ∧ ¬ pr.root = .nil ∧ WF pr.root ∧
      ∀ tweet : Tweet, ∃ b, evalRule pr tweet = some b := by
  obtain ⟨n, m, heq, hwf⟩ :=
    exprT_of_gexpr now compileOk ts hg [] .nil 0 (ts.length + 1) (Or.inl rfl) (le_refl _)
  rw [List.append_nil] at heq
  refine ⟨{ root := n, numNodes := m }, ?_, wf_ne_nil hwf, hwf,
    fun tweet => evalInternal_wf hwf tweet⟩
  simp only [Parse, hbal, hlex, except_bind_ok, heq]

/-- C4 counterexample to the claim as stated: the input `text ~ "\("` is
accepted by the grammar — it lexes to a valid `text ~ <string>` condition
(the theorem exhibits the token sequence and its derivation) — yet `Parse`
fails: the balanced-parentheses pre-check scans the raw text and trips
over the `(` inside the string literal (position 9). -/
theorem c4_counterexample :
    (lexAll (trimChars ("text ~ \"\\(\"" : String).toList) =
      .ok [⟨.tokenIdent, ['t', 'e', 'x', 't'], 0, 4⟩,
           ⟨.tokenIn, ['~'], 5, 1⟩,
           ⟨.tokenString, ['"', '\\', '(', '"'], 7, 4⟩]
     ∧ GExpr 0 litRegexOk [⟨.tokenIdent, ['t', 'e', 'x', 't'], 0, 4⟩,
           ⟨.tokenIn, ['~'], 5, 1⟩,
           ⟨.tokenString, ['"', '\\', '(', '"'], 7, 4⟩])
    ∧ Parse 0 litRegexOk "text ~ \"\\(\"" = .error (.unbalancedOpen 9) :=
  ⟨⟨rfl, GExpr.cond1 _
      (.cond (some { emptyRule with Match := some ['\\', '('] }) .tokenIn)
      ⟨_, _, _, rfl, fun _ => rfl⟩⟩, rfl⟩

/-- C4 witness: the concrete input `likes == 34` discharges every
hypothesis of the amended theorem. -/
theorem c4_grammar_parse_eval_witness :
    (checkUnbalancedParens (trimChars ("likes == 34" : String).toList) = none
     ∧ lexAll (trimChars ("likes == 34" : String).toList) =
        .ok [⟨.tokenIdent, ['l', 'i', 'k', 'e', 's'], 0, 5⟩,
             ⟨.tokenEq, ['=', '='], 6, 2⟩,
             ⟨.tokenNumber, ['3', '4'], 9, 2⟩])
    ∧ ∃ pr, Parse 0 litRegexOk "likes == 34" = .ok pr ∧ ¬ pr.root = .nil ∧ WF pr.root ∧
        ∀ tweet : Tweet, ∃ b, evalRule pr tweet = some b :=
  ⟨⟨rfl, rfl⟩,
    c4_grammar_parse_eval 0 litRegexOk "likes == 34"
      [⟨.tokenIdent, ['l', 'i', 'k', 'e', 's'], 0, 5⟩,
       ⟨.tokenEq, ['=', '='], 6, 2⟩,
       ⟨.tokenNumber, ['3', '4'], 9, 2⟩]
      rfl rfl
      (GExpr.cond1 _ (.cond (some (likesRule 34 .comparatorEq)) .tokenEq)
        ⟨_, _, _, rfl, fun _ => rfl⟩)⟩

end Histweet
